import Mathlib

/-!
Shallow embedding of the Weisfeiler-Leman colour-refinement crate
(`src/lib.rs`, `src/graphwrapper.rs`).  Machine integers (`u64`/`usize`)
are modelled as `Nat` with explicit reduction modulo `2 ^ 64` where the
source can wrap.  The hash primitive `twox_hash::XxHash64::oneshot`,
applied in the source to `&[u64]` slices through `bytemuck::cast_slice`
on a little-endian 64-bit platform, is modelled directly on lists of
64-bit words (the byte length is eight times the word count, so the
4-byte and 1-byte tail steps of XXH64 never fire).
-/

namespace XXH

def M64 : Nat := 2 ^ 64

def prime1 : Nat := 0x9E3779B185EBCA87
def prime2 : Nat := 0xC2B2AE3D27D4EB4F
def prime3 : Nat := 0x165667B19E3779F9
def prime4 : Nat := 0x85EBCA77C2B2AE63
def prime5 : Nat := 0x27D4EB2F165667C5

def wrap (x : Nat) : Nat := x % M64

/-- Rotate a 64-bit value left by `r` bits. -/
def rotl (x r : Nat) : Nat := wrap (x <<< r) ||| (x >>> (64 - r))

/-- The XXH64 accumulator round. -/
def accRound (acc lane : Nat) : Nat :=
  wrap (rotl (wrap (acc + lane * prime2)) 31 * prime1)

def mergeAcc (acc v : Nat) : Nat :=
  wrap ((acc ^^^ accRound 0 v) * prime1 + prime4)

/-- Process 32-byte stripes (four 64-bit lanes at a time); returns the four
accumulators and the remaining words. -/
def stripes : Nat → Nat → Nat → Nat → List Nat →
    Nat × Nat × Nat × Nat × List Nat
  | v1, v2, v3, v4, w0 :: w1 :: w2 :: w3 :: rest =>
      stripes (accRound v1 w0) (accRound v2 w1) (accRound v3 w2)
        (accRound v4 w3) rest
  | v1, v2, v3, v4, rest => (v1, v2, v3, v4, rest)

/-- Fold one remaining 8-byte lane into the accumulator. -/
def finishWord (acc u : Nat) : Nat :=
  wrap (rotl (acc ^^^ accRound 0 u) 27 * prime1 + prime4)

def avalanche (acc : Nat) : Nat :=
  let a1 := wrap ((acc ^^^ (acc >>> 33)) * prime2)
  let a2 := wrap ((a1 ^^^ (a1 >>> 29)) * prime3)
  a2 ^^^ (a2 >>> 32)

/-- `XxHash64::oneshot seed bytes` where `bytes` is the little-endian byte
serialisation of the word list `ws`. -/
def oneshot (seed : Nat) (ws : List Nat) : Nat :=
  let s := wrap seed
  let p :=
    if ws.length < 4 then (wrap (s + prime5), ws)
    else
      match stripes (wrap (s + prime1 + prime2)) (wrap (s + prime2)) s
          (wrap (s + M64 - prime1)) ws with
      | (v1, v2, v3, v4, rest) =>
        (mergeAcc (mergeAcc (mergeAcc (mergeAcc
            (wrap (rotl v1 1 + rotl v2 7 + rotl v3 12 + rotl v4 18)) v1)
            v2) v3) v4,
          rest)
  avalanche (p.2.foldl finishWord (wrap (p.1 + 8 * ws.length)))

end XXH

/-!
## Graph model

`petgraph::Graph<N, E, Ty>`: nodes are the dense indices `0 .. nodeCount`,
edges a sequence of `(source, target)` pairs in insertion order.  Node and
edge weights are carried but never read by the WL code (which consumes only
node count, directedness and adjacency).  Petgraph's `Neighbors` iterator
walks a node's outgoing adjacency list and then its incoming one, each in
reverse insertion order; for undirected graphs self-loops are skipped during
the incoming walk so that they are yielded exactly once.
-/

structure WLGraph (N E : Type) where
  nodeCount : Nat
  directed : Bool
  edges : List (Nat × Nat)
  nodeWeights : List N
  edgeWeights : List E

namespace WL

/-- `graph.neighbors_directed(a, Outgoing)`: targets of edges with source
`a`, most recently inserted first. -/
def outNeighbors (edges : List (Nat × Nat)) (a : Nat) : List Nat :=
  ((edges.filter (fun e => e.1 == a)).map Prod.snd).reverse

/-- `graph.neighbors_directed(a, Incoming)`: sources of edges with target
`a`, most recently inserted first. -/
def inNeighbors (edges : List (Nat × Nat)) (a : Nat) : List Nat :=
  ((edges.filter (fun e => e.2 == a)).map Prod.fst).reverse

/-- `graph.neighbors(a)` on an undirected graph: the outgoing walk followed
by the incoming walk, the latter skipping self-loops. -/
def undirNeighbors (edges : List (Nat × Nat)) (a : Nat) : List Nat :=
  outNeighbors edges a ++
    ((edges.filter (fun e => e.2 == a && e.1 != a)).map Prod.fst).reverse

/-- `graph.edges_connecting(a, b).count()` on an undirected graph: edges
between `a` and `b` in either storage orientation; a self-loop is counted
once. -/
def edgesConnectingCount (edges : List (Nat × Nat)) (a b : Nat) : Nat :=
  (edges.filter (fun e =>
    (e.1 == a && e.2 == b) || (e.2 == a && e.1 == b && a != b))).length

/-- Ascending sort, as `sort_unstable` on `Vec<u64>`. -/
def sortNat (l : List Nat) : List Nat := l.insertionSort (· ≤ ·)

/-- Lexicographic order on `[u64; 2]`. -/
def pairLe (p q : Nat × Nat) : Prop :=
  p.1 < q.1 ∨ (p.1 = q.1 ∧ p.2 ≤ q.2)

instance (p q : Nat × Nat) : Decidable (pairLe p q) := by
  unfold pairLe; exact inferInstance

/-- Ascending sort, as `sort_unstable` on `Vec<[u64; 2]>`. -/
def sortPairs (l : List (Nat × Nat)) : List (Nat × Nat) :=
  l.insertionSort pairLe

/-!
## Label store, stabilisation detector, refinement driver

These mirror the `GraphWrapper` methods that are generic in the WL
dimension (`stabilised`, `update_graph`, `get_results`) and the `run`
driver loop shared verbatim by both dimensions.  The run state carries the
current label buffer, the optional per-index label history (`subgraphs`),
and two instrumentation counters: `rounds` counts executions of
`calculate_new_labels`, `applied` counts executions of `update_graph`.
-/

def lookupA (k : Nat) : List (Nat × Nat) → Option Nat
  | [] => none
  | (a, b) :: rest => if a == k then some b else lookupA k rest

/-- The pass of `stabilised` over the zipped `(old, new)` label pairs,
with the association list standing for the `HashMap` of first-observed
targets. -/
def stabilisedAux : List (Nat × Nat) → List (Nat × Nat) → Bool
  | _, [] => true
  | m, (o, nl) :: rest =>
    match lookupA o m with
    | some t => if nl == t then stabilisedAux m rest else false
    | none => stabilisedAux ((o, nl) :: m) rest

/-- `GraphWrapper::stabilised`. -/
def stabilised (labels newLabels : List Nat) : Bool :=
  stabilisedAux [] (labels.zip newLabels)

/-- `GraphWrapper::get_results`: sort the final labels, hash the sorted
buffer. -/
def getResults (seed : Nat) (labels : List Nat) : Nat :=
  XXH.oneshot seed (sortNat labels)

structure RunState where
  labels : List Nat
  subgraphs : Option (List (List Nat))
  rounds : Nat
  applied : Nat
deriving Repr, DecidableEq

/-- The history push in `update_graph`: append each new label to the
per-index sequence. -/
def pushHistory (sub : Option (List (List Nat))) (nl : List Nat) :
    Option (List (List Nat)) :=
  sub.map (fun h => List.zipWith (fun hs x => hs ++ [x]) h nl)

/-- `GraphWrapper::update_graph` applied to a computed label buffer `nl`. -/
def updateGraph (st : RunState) (nl : List Nat) : RunState :=
  { labels := nl, subgraphs := pushHistory st.subgraphs nl,
    rounds := st.rounds, applied := st.applied + 1 }

/-- One applied round: compute new labels, record them, swap buffers. -/
def stepState (calcF : List Nat → List Nat) (st : RunState) : RunState :=
  let nl := calcF st.labels
  { labels := nl, subgraphs := pushHistory st.subgraphs nl,
    rounds := st.rounds + 1, applied := st.applied + 1 }

/-- The `run` loop: `while check_stable || its < niters { ... }`.  `fuel`
bounds the number of iterations the model will unfold (the auto-stop mode
has no a-priori iteration bound); `none` means the fuel was exhausted with
the loop still running. -/
def loopWL (calcF : List Nat → List Nat) (cs : Bool) (niters : Nat) :
    Nat → Nat → RunState → Option RunState
  | 0, _, _ => none
  | fuel + 1, its, st =>
    if cs || its < niters then
      let nl := calcF st.labels
      let st' : RunState := { st with rounds := st.rounds + 1 }
      if cs && stabilised st.labels nl then some st'
      else loopWL calcF cs niters fuel (its + 1) (updateGraph st' nl)
    else some st

/-- `GraphWrapper::run` from the state left by `initial_graph`. -/
def runWL (calcF : List Nat → List Nat) (cs : Bool) (niters fuel : Nat)
    (st0 : RunState) : Option RunState :=
  loopWL calcF cs niters fuel 1 st0

/-- The iteration-budget clamp in `new`/`new_2wl`:
`if niters == 0 || niters > size { niters = size - 1 }`, with the `usize`
subtraction wrapping at zero as in a release build. -/
def clampNiters (niters size : Nat) : Nat :=
  if niters == 0 || niters > size then (size + XXH.M64 - 1) % XXH.M64
  else niters

/-- The state left by `initial_graph` (either dimension): fresh label
buffer, history seeded with the initial labels when requested. -/
def initState (labels : List Nat) (sub : Bool) : RunState :=
  { labels := labels,
    subgraphs := if sub then some (labels.map (fun l => [l])) else none,
    rounds := 0, applied := 0 }

/-!
## 1-dimensional WL
-/

/-- `initial_graph` for 1-WL: undirected labels are neighbour counts,
directed labels hash `[outgoing_count, incoming_count]`. -/
def initialLabels1 (seed : Nat) (directed : Bool)
    (edges : List (Nat × Nat)) (n : Nat) : List Nat :=
  if !directed then
    (List.range n).map (fun v => (undirNeighbors edges v).length)
  else
    (List.range n).map (fun v =>
      XXH.oneshot seed
        [(outNeighbors edges v).length, (inNeighbors edges v).length])

/-- The body of `calculate_new_labels` for one node.  Undirected: sorted
neighbour labels with the node's own label appended last.  Directed: the
incoming labels are gathered in enumeration order (the source sorts only
the outgoing list), each list hashed separately, then
`[h_in, h_out, own]` hashed. -/
def nodeNewLabel (seed : Nat) (directed : Bool) (edges : List (Nat × Nat))
    (labels : List Nat) (v : Nat) : Nat :=
  if !directed then
    let ih := sortNat ((undirNeighbors edges v).map (fun u => labels.getD u 0))
    XXH.oneshot seed (ih ++ [labels.getD v 0])
  else
    let ih := (inNeighbors edges v).map (fun u => labels.getD u 0)
    let oh := sortNat ((outNeighbors edges v).map (fun u => labels.getD u 0))
    XXH.oneshot seed
      [XXH.oneshot seed ih, XXH.oneshot seed oh, labels.getD v 0]

/-- `calculate_new_labels` for 1-WL. -/
def calcNew1 (seed : Nat) (directed : Bool) (edges : List (Nat × Nat))
    (n : Nat) (labels : List Nat) : List Nat :=
  (List.range n).map (nodeNewLabel seed directed edges labels)

/-- `GraphWrapper::<_, _, _, OneWL>::new` followed by `run`, fixed-count
mode (`check_stable = false`).  The fuel `clamp + 1` provably suffices, so
the `getD` default is never used. -/
def run1Fixed (n : Nat) (directed : Bool) (edges : List (Nat × Nat))
    (seed niters : Nat) (sub : Bool) : RunState :=
  let c := clampNiters niters n
  let st0 := initState (initialLabels1 seed directed edges n) sub
  (runWL (calcNew1 seed directed edges n) false c (c + 1) st0).getD st0

/-- `new` followed by `run`, auto-stop mode (`check_stable = true`). -/
def run1Auto (n : Nat) (directed : Bool) (edges : List (Nat × Nat))
    (seed : Nat) (sub : Bool) (fuel : Nat) : Option RunState :=
  runWL (calcNew1 seed directed edges n) true (clampNiters 0 n) fuel
    (initState (initialLabels1 seed directed edges n) sub)

/-!  Public 1-WL entry points (`src/lib.rs`), all with the fixed default
seed 42. -/

def invariantCore (n : Nat) (directed : Bool) (edges : List (Nat × Nat))
    (fuel : Nat) : Option Nat :=
  (run1Auto n directed edges 42 false fuel).map (fun st => getResults 42 st.labels)

/-- `wl_isomorphism::invariant` (1-WL, auto-stop). -/
def invariant {N E : Type} (g : WLGraph N E) (fuel : Nat) : Option Nat :=
  invariantCore g.nodeCount g.directed g.edges fuel

def invariantItersCore (n : Nat) (directed : Bool)
    (edges : List (Nat × Nat)) (nIters : Nat) : Nat :=
  getResults 42 (run1Fixed n directed edges 42 nIters false).labels

/-- `wl_isomorphism::invariant_iters` (1-WL, fixed budget). -/
def invariantIters {N E : Type} (g : WLGraph N E) (nIters : Nat) : Nat :=
  invariantItersCore g.nodeCount g.directed g.edges nIters

def neighbourhoodHashCore (n : Nat) (directed : Bool)
    (edges : List (Nat × Nat)) (nIters : Nat) : List (List Nat) :=
  (run1Fixed n directed edges 42 nIters true).subgraphs.getD []

/-- `wl_isomorphism::neighbourhood_hash` (1-WL, fixed budget, history). -/
def neighbourhoodHash {N E : Type} (g : WLGraph N E) (nIters : Nat) :
    List (List Nat) :=
  neighbourhoodHashCore g.nodeCount g.directed g.edges nIters

def neighbourhoodStableCore (n : Nat) (directed : Bool)
    (edges : List (Nat × Nat)) (fuel : Nat) : Option (List (List Nat)) :=
  (run1Auto n directed edges 42 true fuel).map (fun st => st.subgraphs.getD [])

/-- `wl_isomorphism::neighbourhood_stable` (1-WL, auto-stop, history). -/
def neighbourhoodStable {N E : Type} (g : WLGraph N E) (fuel : Nat) :
    Option (List (List Nat)) :=
  neighbourhoodStableCore g.nodeCount g.directed g.edges fuel

/-- Build a graph the way `Graph::from_edges` does: the node count is one
more than the largest mentioned index (zero for no edges). -/
def fromEdges (directed : Bool) (edges : List (Nat × Nat)) :
    WLGraph Unit Unit :=
  { nodeCount :=
      match edges with
      | [] => 0
      | _ => (edges.foldl (fun m e => max m (max e.1 e.2)) 0) + 1,
    directed := directed, edges := edges,
    nodeWeights := [], edgeWeights := [] }

/-!
## 2-dimensional WL (2-FWL)
-/

/-- `get_label_index`: canonical triangular index of an unordered pair,
swapping the operands first when `right > left`. -/
def getLabelIndex (left right : Nat) : Nat :=
  if right > left then (right * right + right) / 2 + left
  else (left * left + left) / 2 + right

/-- The validation part of `GraphWrapper::new_2wl`: the guard panics
(modelled as `Except.error` carrying the panic message) on subgraph
hashing, on a directed graph, and when the pair count overflows; otherwise
it returns the number of stored tuples
`((n - 1)^2 + n - 1) / 2 + n = n (n + 1) / 2`.  The `usize` subtraction
`node_count - 1` wraps at zero as in a release build, which sends the
zero-node case into the `checked_pow` overflow panic. -/
def new2wlCheck (n : Nat) (directed sub : Bool) : Except String Nat :=
  if sub then
    Except.error "Subgraph hashing is not supported for 2-dimensional WL"
  else if directed then
    Except.error "Directed graphs are not yet supported for 2-dimensional WL"
  else
    let m := (n + XXH.M64 - 1) % XXH.M64
    if m ^ 2 ≥ XXH.M64 then
      Except.error "This grapsize exceeds support for 2-dimensional WL"
    else Except.ok ((m ^ 2 + n - 1) / 2 + n)

/-- `initial_graph` for 2-WL: labels pushed in triangular order, pair
`(left, right)` with `right ≤ left` labelled by its connecting edge
count. -/
def initialLabels2 (edges : List (Nat × Nat)) (n : Nat) : List Nat :=
  (List.range n).flatMap (fun left =>
    (List.range (left + 1)).map (fun right =>
      edgesConnectingCount edges left right))

/-- The body of `calculate_new_labels` for one pair `(left, right)`:
for every third node, the two leg labels ordered small-first, the pair
list sorted lexicographically, flattened, the pair's own label appended,
hashed. -/
def pairNewLabel (seed n : Nat) (labels : List Nat) (left right : Nat) :
    Nat :=
  let inputHashes := (List.range n).map (fun alternative =>
    let leftReplace := labels.getD (getLabelIndex alternative right) 0
    let rightReplace := labels.getD (getLabelIndex left alternative) 0
    if leftReplace < rightReplace then (leftReplace, rightReplace)
    else (rightReplace, leftReplace))
  let flat := (sortPairs inputHashes).flatMap (fun p => [p.1, p.2]) ++
    [labels.getD (getLabelIndex left right) 0]
  XXH.oneshot seed flat

/-- `calculate_new_labels` for 2-WL. -/
def calcNew2 (seed n : Nat) (labels : List Nat) : List Nat :=
  (List.range n).flatMap (fun left =>
    (List.range (left + 1)).map (fun right =>
      pairNewLabel seed n labels left right))

/-- `new_2wl` followed by `run`, fixed-count mode. -/
def run2Fixed (n : Nat) (edges : List (Nat × Nat)) (seed niters : Nat)
    (tuples : Nat) : RunState :=
  let c := clampNiters niters tuples
  let st0 := initState (initialLabels2 edges n) false
  (runWL (calcNew2 seed n) false c (c + 1) st0).getD st0

/-- `wl_isomorphism::iter_2wl` (2-FWL, fixed budget). -/
def iter2wlCore (n : Nat) (directed : Bool) (edges : List (Nat × Nat))
    (nIters : Nat) : Except String Nat :=
  (new2wlCheck n directed false).map (fun tuples =>
    getResults 42 (run2Fixed n edges 42 nIters tuples).labels)

def iter2wl {N E : Type} (g : WLGraph N E) (nIters : Nat) :
    Except String Nat :=
  iter2wlCore g.nodeCount g.directed g.edges nIters

/-- `wl_isomorphism::invariant_2wl` (2-FWL, auto-stop).  The outer
`Except` is the construction-time panic, the inner `Option` the loop
fuel. -/
def invariant2wlCore (n : Nat) (directed : Bool)
    (edges : List (Nat × Nat)) (fuel : Nat) : Except String (Option Nat) :=
  (new2wlCheck n directed false).map (fun tuples =>
    (runWL (calcNew2 42 n) true (clampNiters 0 tuples) fuel
        (initState (initialLabels2 edges n) false)).map
      (fun st => getResults 42 st.labels))

def invariant2wl {N E : Type} (g : WLGraph N E) (fuel : Nat) :
    Except String (Option Nat) :=
  invariant2wlCore g.nodeCount g.directed g.edges fuel

/-!
## Specification-side definitions used for comparison
-/

/-- The directed 1-WL round as the specification words it (§4.2): gather
incoming-neighbour labels and sort, gather outgoing-neighbour labels and
sort, hash each list, then hash `[h_in, h_out, own_label]`.  This is the
comparison definition for the sortedness claim; the source
(`nodeNewLabel`) sorts only the outgoing list. -/
def specDirectedNodeLabel (seed : Nat) (edges : List (Nat × Nat))
    (labels : List Nat) (v : Nat) : Nat :=
  let ih := sortNat ((inNeighbors edges v).map (fun u => labels.getD u 0))
  let oh := sortNat ((outNeighbors edges v).map (fun u => labels.getD u 0))
  XXH.oneshot seed [XXH.oneshot seed ih, XXH.oneshot seed oh, labels.getD v 0]

/-- The old-to-new label assignment induced by a pair list is a function of
the old label value. -/
def pairsFunctional (l : List (Nat × Nat)) : Prop :=
  ∀ p ∈ l, ∀ q ∈ l, p.1 = q.1 → p.2 = q.2

/-- The node bijection exchanging indices 1 and 2, used to exhibit a
relabelled directed graph. -/
def swap12 (v : Nat) : Nat := if v = 1 then 2 else if v = 2 then 1 else v

/-- The per-index label history after `k` applied rounds of `f` from the
initial buffer `labels0`: index `v` holds
`[labels0[v], (f labels0)[v], …, (f^[k] labels0)[v]]`. -/
def histMat (f : List Nat → List Nat) (labels0 : List Nat) (k : Nat) :
    List (List Nat) :=
  (List.range labels0.length).map (fun v =>
    (List.range (k + 1)).map (fun i => (f^[i] labels0).getD v 0))

end WL

namespace WL

/-!
## Driver-loop characterisation lemmas
-/

theorem updateGraph_bump (calcF : List Nat → List Nat) (st : RunState) :
    updateGraph { st with rounds := st.rounds + 1 } (calcF st.labels) =
      stepState calcF st := rfl

/-- One unfolding of the `run` loop. -/
theorem loopWL_succ (calcF : List Nat → List Nat) (cs : Bool)
    (niters fuel its : Nat) (st : RunState) :
    loopWL calcF cs niters (fuel + 1) its st =
      if cs || its < niters then
        let nl := calcF st.labels
        let st' : RunState := { st with rounds := st.rounds + 1 }
        if cs && stabilised st.labels nl then some st'
        else loopWL calcF cs niters fuel (its + 1) (updateGraph st' nl)
      else some st := rfl

/-- In fixed-count mode the loop applies `niters - its` rounds and
returns. -/
theorem loopWL_fixed (calcF : List Nat → List Nat) (niters : Nat) :
    ∀ (d fuel its : Nat) (st : RunState), niters - its = d → d < fuel →
      loopWL calcF false niters fuel its st =
        some ((stepState calcF)^[d] st) := by
  intro d
  induction d with
  | zero =>
    intro fuel its st hd hf
    match fuel, hf with
    | fuel + 1, _ =>
      have hn : ¬ its < niters := by omega
      simp [loopWL, hn]
  | succ d ih =>
    intro fuel its st hd hf
    match fuel, hf with
    | fuel + 1, hf =>
      have hlt : its < niters := by omega
      simp only [loopWL, Bool.false_or, Bool.false_and, decide_eq_true_eq,
        if_pos hlt, Bool.false_eq_true, if_false]
      rw [updateGraph_bump, ih fuel (its + 1) (stepState calcF st)
        (by omega) (by omega), Function.iterate_succ_apply]

/-- In auto-stop mode a successful run applied some number `k` of rounds,
computed a `(k+1)`-st label buffer on which the stabilisation detector
fired, and stopped without applying it: the returned state is the state
after `k` applied rounds with only the round counter bumped. -/
theorem loopWL_auto (calcF : List Nat → List Nat) (niters : Nat) :
    ∀ (fuel its : Nat) (st st' : RunState),
      loopWL calcF true niters fuel its st = some st' →
      ∃ k,
        stabilised ((stepState calcF)^[k] st).labels
          (calcF ((stepState calcF)^[k] st).labels) = true ∧
        st' = { (stepState calcF)^[k] st with
                  rounds := ((stepState calcF)^[k] st).rounds + 1 } := by
  intro fuel
  induction fuel with
  | zero => intro its st st' h; simp [loopWL] at h
  | succ fuel ih =>
    intro its st st' h
    simp only [loopWL, Bool.true_or, if_true, Bool.true_and] at h
    by_cases hstab : stabilised st.labels (calcF st.labels) = true
    · refine ⟨0, by simpa using hstab, ?_⟩
      simp only [hstab, if_true, Option.some.injEq] at h
      simp [← h, Function.iterate_zero_apply]
    · rw [if_neg (by simpa using hstab), updateGraph_bump] at h
      obtain ⟨k, hs, he⟩ := ih (its + 1) (stepState calcF st) st' h
      exact ⟨k + 1, by rwa [Function.iterate_succ_apply],
        by rwa [Function.iterate_succ_apply]⟩

/-- Counters of the iterated step: each applied round increments both
`rounds` and `applied`. -/
theorem stepState_iterate_counters (calcF : List Nat → List Nat)
    (k : Nat) (st : RunState) :
    ((stepState calcF)^[k] st).rounds = st.rounds + k ∧
      ((stepState calcF)^[k] st).applied = st.applied + k := by
  induction k with
  | zero => simp
  | succ k ih =>
    rw [Function.iterate_succ_apply']
    simp only [stepState]
    omega

/-- The label buffer of the iterated step is the iterated round map. -/
theorem stepState_iterate_labels (calcF : List Nat → List Nat)
    (k : Nat) (st : RunState) :
    ((stepState calcF)^[k] st).labels = calcF^[k] st.labels := by
  induction k with
  | zero => simp
  | succ k ih =>
    rw [Function.iterate_succ_apply', Function.iterate_succ_apply']
    simp only [stepState, ih]

theorem run1Fixed_eq (n : Nat) (directed : Bool) (edges : List (Nat × Nat))
    (seed niters : Nat) (sub : Bool) :
    run1Fixed n directed edges seed niters sub =
      (stepState (calcNew1 seed directed edges n))^[clampNiters niters n - 1]
        (initState (initialLabels1 seed directed edges n) sub) := by
  have h := loopWL_fixed (calcNew1 seed directed edges n)
    (clampNiters niters n) (clampNiters niters n - 1)
    (clampNiters niters n + 1) 1
    (initState (initialLabels1 seed directed edges n) sub)
    (by omega) (by omega)
  unfold run1Fixed runWL
  simp only [h, Option.getD_some]

theorem run2Fixed_eq (n : Nat) (edges : List (Nat × Nat))
    (seed niters tuples : Nat) :
    run2Fixed n edges seed niters tuples =
      (stepState (calcNew2 seed n))^[clampNiters niters tuples - 1]
        (initState (initialLabels2 edges n) false) := by
  have h := loopWL_fixed (calcNew2 seed n) (clampNiters niters tuples)
    (clampNiters niters tuples - 1) (clampNiters niters tuples + 1) 1
    (initState (initialLabels2 edges n) false) (by omega) (by omega)
  unfold run2Fixed runWL
  simp only [h, Option.getD_some]

/-- A budget within `1 ≤ b ≤ size` is kept as is by the clamp. -/
theorem clampNiters_of_le (b size : Nat) (h1 : 1 ≤ b) (h2 : b ≤ size) :
    clampNiters b size = b := by
  unfold clampNiters
  have hb : ¬ (b == 0 || decide (b > size)) = true := by
    simp only [Bool.or_eq_true, beq_iff_eq, decide_eq_true_eq]
    omega
  rw [if_neg hb]

theorem calcNew1_length (seed : Nat) (directed : Bool)
    (edges : List (Nat × Nat)) (n : Nat) (labels : List Nat) :
    (calcNew1 seed directed edges n labels).length = n := by
  simp [calcNew1]

theorem initialLabels1_length (seed : Nat) (directed : Bool)
    (edges : List (Nat × Nat)) (n : Nat) :
    (initialLabels1 seed directed edges n).length = n := by
  unfold initialLabels1
  by_cases h : directed <;> simp [h]

/-- When history recording is on, the state after `k` applied rounds holds
exactly the history matrix: per index the initial label followed by one
label per applied round. -/
theorem stepState_iterate_subgraphs (f : List Nat → List Nat)
    (labels0 : List Nat) (hf : ∀ l, (f l).length = labels0.length) :
    ∀ k, ((stepState f)^[k] (initState labels0 true)).subgraphs =
      some (histMat f labels0 k) := by
  intro k
  induction k with
  | zero =>
    simp only [Function.iterate_zero_apply, initState, if_pos rfl, histMat]
    refine congrArg some (List.ext_getElem (by simp) ?_)
    intro v h1 h2
    simp only [List.getElem_map, List.getElem_range]
    have hr : List.range (0 + 1) = [0] := rfl
    rw [hr]
    simp only [List.map_cons, List.map_nil, Function.iterate_zero_apply]
    rw [List.getD_eq_getElem labels0 0 (by simpa using h1)]
  | succ k ih =>
    rw [Function.iterate_succ_apply']
    simp only [stepState, pushHistory, ih, Option.map_some]
    refine congrArg some ?_
    have hlab : ((stepState f)^[k] (initState labels0 true)).labels =
        f^[k] labels0 := stepState_iterate_labels f k _
    rw [hlab]
    have hlen1 : (histMat f labels0 k).length = labels0.length := by
      simp [histMat]
    have hlen2 : (f (f^[k] labels0)).length = labels0.length := hf _
    refine List.ext_getElem (by simp [histMat, hlen1, hlen2]) ?_
    intro v h1 h2
    have hv : v < labels0.length := by
      simpa [hlen1, hlen2] using h1
    simp only [List.getElem_zipWith, histMat, List.getElem_map,
      List.getElem_range]
    conv_rhs => rw [List.range_succ]
    rw [List.map_append]
    congr 1
    simp only [List.map_cons, List.map_nil]
    congr 1
    rw [Function.iterate_succ_apply' f k labels0]
    exact (List.getD_eq_getElem _ 0 (by simpa [hlen2] using hv)).symm

/-- Full characterisation of an auto-stop run: `k` rounds were applied,
round `k + 1` was computed, found stabilising, and discarded. -/
theorem run1Auto_spec (n : Nat) (directed : Bool)
    (edges : List (Nat × Nat)) (seed : Nat) (sub : Bool) (fuel : Nat)
    (st' : RunState)
    (h : run1Auto n directed edges seed sub fuel = some st') :
    ∃ k,
      stabilised ((calcNew1 seed directed edges n)^[k]
          (initialLabels1 seed directed edges n))
        ((calcNew1 seed directed edges n)^[k + 1]
          (initialLabels1 seed directed edges n)) = true ∧
      st'.labels = (calcNew1 seed directed edges n)^[k]
          (initialLabels1 seed directed edges n) ∧
      st'.rounds = k + 1 ∧ st'.applied = k ∧
      (sub = true → st'.subgraphs =
        some (histMat (calcNew1 seed directed edges n)
          (initialLabels1 seed directed edges n) k)) := by
  obtain ⟨k, hs, he⟩ := loopWL_auto _ _ _ _ _ _ h
  set f := calcNew1 seed directed edges n
  set L0 := initialLabels1 seed directed edges n
  have hlab : ((stepState f)^[k] (initState L0 sub)).labels = f^[k] L0 :=
    stepState_iterate_labels f k _
  have hc := stepState_iterate_counters f k (initState L0 sub)
  refine ⟨k, ?_, ?_, ?_, ?_, ?_⟩
  · rw [Function.iterate_succ_apply']
    rw [hlab] at hs
    exact hs
  · rw [he]; exact hlab
  · rw [he]; simpa [initState] using hc.1
  · rw [he]; simpa [initState] using hc.2
  · intro hsub
    subst hsub
    rw [he]
    exact stepState_iterate_subgraphs f L0
      (fun l => by rw [calcNew1_length, initialLabels1_length]) k

/-!
## Claim C3
-/

/-- Claim C3: in auto-stop mode, when the stabilisation detector returns
true for a computed round, the run terminates without swapping the label
buffers and without appending that round's labels to the history: the
returned state holds the labels after `k` applied rounds although `k + 1`
rounds were computed, and the recorded history has one entry per applied
round only, so the emitted invariant (`getResults` of the final labels)
and history reflect the labels as of the round before the stabilising
one. -/
theorem c3_auto_stop_discards_stabilizing_round (n : Nat) (directed : Bool)
    (edges : List (Nat × Nat)) (seed : Nat) (sub : Bool) (fuel : Nat)
    (st' : RunState)
    (h : run1Auto n directed edges seed sub fuel = some st') :
    ∃ k,
      stabilised ((calcNew1 seed directed edges n)^[k]
          (initialLabels1 seed directed edges n))
        ((calcNew1 seed directed edges n)^[k + 1]
          (initialLabels1 seed directed edges n)) = true ∧
      st'.labels = (calcNew1 seed directed edges n)^[k]
          (initialLabels1 seed directed edges n) ∧
      st'.rounds = k + 1 ∧ st'.applied = k ∧
      (sub = true → st'.subgraphs =
        some (histMat (calcNew1 seed directed edges n)
          (initialLabels1 seed directed edges n) k)) :=
  run1Auto_spec n directed edges seed sub fuel st' h

/-- Witness for C3 at the single-node graph: the run stabilises after
computing round 1, applying none of it. -/
theorem c3_witness :
    ∃ k,
      stabilised ((calcNew1 42 false [] 1)^[k] (initialLabels1 42 false [] 1))
        ((calcNew1 42 false [] 1)^[k + 1] (initialLabels1 42 false [] 1)) =
          true ∧
      (RunState.mk [0] (some [[0]]) 1 0).labels =
        (calcNew1 42 false [] 1)^[k] (initialLabels1 42 false [] 1) ∧
      (RunState.mk [0] (some [[0]]) 1 0).rounds = k + 1 ∧
      (RunState.mk [0] (some [[0]]) 1 0).applied = k ∧
      (true = true → (RunState.mk [0] (some [[0]]) 1 0).subgraphs =
        some (histMat (calcNew1 42 false [] 1)
          (initialLabels1 42 false [] 1) k)) :=
  c3_auto_stop_discards_stabilizing_round 1 false [] 42 true 2
    (RunState.mk [0] (some [[0]]) 1 0) (by decide)

/-!
## Claim C4
-/

/-- Counterexample to claim C4 as stated: with budget `n = 2` on the star
graph (4 nodes, within the index-space bound), the driver performs one
label-recomputation round, not two. -/
theorem c4_counterexample :
    (run1Fixed 4 false [(0, 1), (0, 2), (0, 3)] 42 2 false).rounds = 1 ∧
      ¬ (run1Fixed 4 false [(0, 1), (0, 2), (0, 3)] 42 2 false).rounds = 2 :=
  by decide

/-- Claim C4 as amended: in fixed-count mode with a requested budget `b`,
`1 ≤ b ≤` index-space size (node count for 1-WL, tuple count for 2-WL),
the driver performs exactly `b - 1` label-recomputation rounds after
initial labelling (the loop runs `its = 1` while `its < b`). -/
theorem c4_amended :
    (∀ (n : Nat) (directed : Bool) (edges : List (Nat × Nat))
        (seed b : Nat) (sub : Bool), 1 ≤ b → b ≤ n →
      (run1Fixed n directed edges seed b sub).rounds = b - 1 ∧
        (run1Fixed n directed edges seed b sub).applied = b - 1) ∧
    (∀ (n : Nat) (edges : List (Nat × Nat)) (seed b tuples : Nat),
        new2wlCheck n false false = Except.ok tuples → 1 ≤ b → b ≤ tuples →
      (run2Fixed n edges seed b tuples).rounds = b - 1 ∧
        (run2Fixed n edges seed b tuples).applied = b - 1) := by
  constructor
  · intro n directed edges seed b sub h1 h2
    rw [run1Fixed_eq, clampNiters_of_le b n h1 h2]
    have hc := stepState_iterate_counters (calcNew1 seed directed edges n)
      (b - 1) (initState (initialLabels1 seed directed edges n) sub)
    simpa [initState] using hc
  · intro n edges seed b tuples _ h1 h2
    rw [run2Fixed_eq, clampNiters_of_le b tuples h1 h2]
    have hc := stepState_iterate_counters (calcNew2 seed n) (b - 1)
      (initState (initialLabels2 edges n) false)
    simpa [initState] using hc

/-- Witness for the amended C4: star graph with budget 3 performs 2
rounds; the 2-node 2-WL wrapper (3 tuples) with budget 2 performs 1. -/
theorem c4_amended_witness :
    ((run1Fixed 4 false [(0, 1), (0, 2), (0, 3)] 42 3 false).rounds =
        3 - 1) ∧
      ((run2Fixed 2 [(0, 1)] 42 2 3).rounds = 2 - 1) :=
  ⟨(c4_amended.1 4 false [(0, 1), (0, 2), (0, 3)] 42 3 false (by decide)
      (by decide)).1,
    (c4_amended.2 2 [(0, 1)] 42 2 3 (by rfl) (by decide) (by decide)).1⟩

/-!
## Claim C6
-/

/-- `stabilisedAux m l` succeeds exactly when the pair list is functional
and consistent with the already-recorded mapping `m`. -/
theorem stabilisedAux_spec : ∀ (l m : List (Nat × Nat)),
    stabilisedAux m l = true ↔
      (pairsFunctional l ∧ ∀ p ∈ l, ∀ t, lookupA p.1 m = some t → p.2 = t) := by
  intro l
  induction l with
  | nil =>
    intro m
    simp [stabilisedAux, pairsFunctional]
  | cons hd rest ih =>
    intro m
    obtain ⟨o, nl⟩ := hd
    cases hl : lookupA o m with
    | some t =>
      by_cases hnt : nl = t
      · subst hnt
        rw [show stabilisedAux m ((o, nl) :: rest) = stabilisedAux m rest by
          simp [stabilisedAux, hl]]
        rw [ih m]
        constructor
        · rintro ⟨hf, hc⟩
          constructor
          · rintro p hp q hq h1
            rcases List.mem_cons.mp hp with hp' | hp' <;>
              rcases List.mem_cons.mp hq with hq' | hq'
            · rw [hp', hq']
            · subst hp'
              have h1' : o = q.1 := h1
              show nl = q.2
              exact (hc q hq' nl (h1' ▸ hl)).symm
            · subst hq'
              have h1' : p.1 = o := h1
              show p.2 = nl
              exact hc p hp' nl (h1'.symm ▸ hl)
            · exact hf p hp' q hq' h1
          · rintro p hp t' ht'
            rcases List.mem_cons.mp hp with hp' | hp'
            · subst hp'
              have ht2 : lookupA o m = some t' := ht'
              rw [hl] at ht2
              exact Option.some.inj ht2
            · exact hc p hp' t' ht'
        · rintro ⟨hf, hc⟩
          exact ⟨fun p hp q hq h1 => hf p (List.mem_cons_of_mem _ hp) q
              (List.mem_cons_of_mem _ hq) h1,
            fun p hp t' ht' => hc p (List.mem_cons_of_mem _ hp) t' ht'⟩
      · rw [show stabilisedAux m ((o, nl) :: rest) = false by
          simp [stabilisedAux, hl, beq_iff_eq, hnt]]
        simp only [Bool.false_eq_true, false_iff]
        rintro ⟨_, hc⟩
        exact hnt (hc (o, nl) (List.mem_cons_self _ _) t hl)
    | none =>
      rw [show stabilisedAux m ((o, nl) :: rest) =
          stabilisedAux ((o, nl) :: m) rest by simp [stabilisedAux, hl]]
      rw [ih ((o, nl) :: m)]
      constructor
      · rintro ⟨hf, hc⟩
        constructor
        · rintro p hp q hq h1
          rcases List.mem_cons.mp hp with hp' | hp' <;>
            rcases List.mem_cons.mp hq with hq' | hq'
          · rw [hp', hq']
          · subst hp'
            have h1' : o = q.1 := h1
            show nl = q.2
            refine (hc q hq' nl ?_).symm
            show lookupA q.1 ((o, nl) :: m) = some nl
            simp only [lookupA]
            rw [if_pos (by simp [h1'])]
          · subst hq'
            have h1' : p.1 = o := h1
            show p.2 = nl
            refine hc p hp' nl ?_
            show lookupA p.1 ((o, nl) :: m) = some nl
            simp only [lookupA]
            rw [if_pos (by simp [h1'])]
          · exact hf p hp' q hq' h1
        · rintro p hp t' ht'
          rcases List.mem_cons.mp hp with hp' | hp'
          · subst hp'
            have ht2 : lookupA o m = some t' := ht'
            rw [hl] at ht2
            cases ht2
          · by_cases ho : o = p.1
            · rw [ho] at hl
              rw [hl] at ht'
              cases ht'
            · refine hc p hp' t' ?_
              show lookupA p.1 ((o, nl) :: m) = some t'
              simp only [lookupA]
              rw [if_neg (by simpa using ho)]
              exact ht'
      · rintro ⟨hf, hc⟩
        refine ⟨fun p hp q hq h1 => hf p (List.mem_cons_of_mem _ hp) q
            (List.mem_cons_of_mem _ hq) h1, ?_⟩
        rintro p hp t' ht'
        have ht2 : (if (o == p.1) = true then some nl else lookupA p.1 m) =
            some t' := ht'
        by_cases ho : (o == p.1) = true
        · rw [if_pos ho] at ht2
          have h1 : o = p.1 := by simpa using ho
          have h2 : nl = t' := Option.some.inj ht2
          rw [← h2]
          exact (hf (o, nl) (List.mem_cons_self _ _) p
            (List.mem_cons_of_mem _ hp) h1).symm
        · rw [if_neg ho] at ht2
          exact hc p (List.mem_cons_of_mem _ hp) t' ht2

/-- `stabilised` is exactly functionality of the old-to-new pairing. -/
theorem stabilised_iff_functional (old new : List Nat) :
    stabilised old new = true ↔ pairsFunctional (old.zip new) := by
  unfold stabilised
  rw [stabilisedAux_spec]
  simp [lookupA]

/-- Claim C6: on equal-length buffers the stabilisation detector returns
true iff any two indices holding equal old labels also hold equal new
labels. -/
theorem c6_stabilised_iff (old new : List Nat) (h : old.length = new.length) :
    stabilised old new = true ↔
      ∀ i j, i < old.length → j < old.length →
        old.getD i 0 = old.getD j 0 → new.getD i 0 = new.getD j 0 := by
  rw [stabilised_iff_functional]
  have hzl : (old.zip new).length = old.length := by
    rw [List.length_zip, h, Nat.min_self]
  constructor
  · intro hf i j hi hj heq
    have hmi : (old.getD i 0, new.getD i 0) ∈ old.zip new := by
      rw [List.mem_iff_getElem]
      refine ⟨i, by omega, ?_⟩
      rw [List.getElem_zip, List.getD_eq_getElem old 0 hi,
        List.getD_eq_getElem new 0 (by omega)]
    have hmj : (old.getD j 0, new.getD j 0) ∈ old.zip new := by
      rw [List.mem_iff_getElem]
      refine ⟨j, by omega, ?_⟩
      rw [List.getElem_zip, List.getD_eq_getElem old 0 hj,
        List.getD_eq_getElem new 0 (by omega)]
    exact hf _ hmi _ hmj heq
  · intro hF p hp q hq h1
    obtain ⟨i, hi, hip⟩ := List.mem_iff_getElem.mp hp
    obtain ⟨j, hj, hjq⟩ := List.mem_iff_getElem.mp hq
    have hi' : i < old.length := by omega
    have hj' : j < old.length := by omega
    have e1 : p.1 = old.getD i 0 := by
      rw [← hip, List.getElem_zip, List.getD_eq_getElem old 0 hi']
    have e2 : p.2 = new.getD i 0 := by
      rw [← hip, List.getElem_zip, List.getD_eq_getElem new 0 (by omega)]
    have f1 : q.1 = old.getD j 0 := by
      rw [← hjq, List.getElem_zip, List.getD_eq_getElem old 0 hj']
    have f2 : q.2 = new.getD j 0 := by
      rw [← hjq, List.getElem_zip, List.getD_eq_getElem new 0 (by omega)]
    rw [e2, f2]
    exact hF i j hi' hj' (by rw [← e1, ← f1]; exact h1)

/-- Witness for C6 at a concrete pair of buffers. -/
theorem c6_witness :
    stabilised [5, 7, 5] [9, 3, 9] = true ↔
      ∀ i j, i < [5, 7, 5].length → j < [5, 7, 5].length →
        [5, 7, 5].getD i 0 = [5, 7, 5].getD j 0 →
        [9, 3, 9].getD i 0 = [9, 3, 9].getD j 0 :=
  c6_stabilised_iff [5, 7, 5] [9, 3, 9] (by decide)

/-!
## Claim C7
-/

theorem tri_succ (m : Nat) :
    (m + 1) * (m + 2) / 2 = m * (m + 1) / 2 + (m + 1) := by
  have h2 : 2 ∣ m * (m + 1) := (Nat.even_mul_succ_self m).two_dvd
  have h : (m + 1) * (m + 2) = m * (m + 1) + 2 * (m + 1) := by ring
  omega

theorem tri_mono {a b : Nat} (h : a ≤ b) :
    a * (a + 1) / 2 ≤ b * (b + 1) / 2 :=
  Nat.div_le_div_right (Nat.mul_le_mul h (by omega))

theorem tri_lt {i j n : Nat} (hj : j ≤ i) (hi : i < n) :
    i * (i + 1) / 2 + j < n * (n + 1) / 2 := by
  have h1 := tri_succ i
  have h2 : (i + 1) * (i + 2) / 2 ≤ n * (n + 1) / 2 := tri_mono hi
  omega

theorem tri_inj {i1 j1 i2 j2 : Nat} (h1 : j1 ≤ i1) (h2 : j2 ≤ i2)
    (he : i1 * (i1 + 1) / 2 + j1 = i2 * (i2 + 1) / 2 + j2) :
    i1 = i2 ∧ j1 = j2 := by
  rcases Nat.lt_trichotomy i1 i2 with hlt | heq | hgt
  · have ha := tri_succ i1
    have hb : (i1 + 1) * (i1 + 2) / 2 ≤ i2 * (i2 + 1) / 2 := tri_mono hlt
    omega
  · subst heq; omega
  · have ha := tri_succ i2
    have hb : (i2 + 1) * (i2 + 2) / 2 ≤ i1 * (i1 + 1) / 2 := tri_mono hgt
    omega

theorem tri_surj : ∀ n k : Nat, k < n * (n + 1) / 2 →
    ∃ i j, j ≤ i ∧ i < n ∧ i * (i + 1) / 2 + j = k := by
  intro n
  induction n with
  | zero => intro k hk; omega
  | succ m ih =>
    intro k hk
    have hnum : (m + 1) * (m + 1 + 1) = (m + 1) * (m + 2) := by ring
    have ht := tri_succ m
    by_cases hc : k < m * (m + 1) / 2
    · obtain ⟨i, j, h1, h2, h3⟩ := ih k hc
      exact ⟨i, j, h1, by omega, h3⟩
    · exact ⟨m, k - m * (m + 1) / 2, by omega, by omega, by omega⟩

theorem getLabelIndex_of_ge (i j : Nat) (h : j ≤ i) :
    getLabelIndex i j = i * (i + 1) / 2 + j := by
  unfold getLabelIndex
  rw [if_neg (by omega)]
  have : i * i + i = i * (i + 1) := by ring
  rw [this]

/-- Claim C7: the pair-index function swaps its operands when `j > i`,
computes `i * (i + 1) / 2 + j` for `j ≤ i`, and restricted to
`{(i, j) : j ≤ i < n}` is a bijection onto `{0, …, n (n + 1) / 2 - 1}`. -/
theorem c7_pair_index_bijection (n : Nat) :
    (∀ i j, i < j → getLabelIndex i j = getLabelIndex j i) ∧
    (∀ i j, j ≤ i → getLabelIndex i j = i * (i + 1) / 2 + j) ∧
    Set.BijOn (fun p : Nat × Nat => getLabelIndex p.1 p.2)
      {p : Nat × Nat | p.2 ≤ p.1 ∧ p.1 < n}
      {k : Nat | k < n * (n + 1) / 2} := by
  refine ⟨?_, getLabelIndex_of_ge, ?_, ?_, ?_⟩
  · intro i j hij
    unfold getLabelIndex
    rw [if_pos (by omega), if_neg (by omega)]
  · rintro ⟨i, j⟩ ⟨hj, hi⟩
    have hj' : j ≤ i := hj
    have hi' : i < n := hi
    show getLabelIndex i j < n * (n + 1) / 2
    rw [getLabelIndex_of_ge i j hj']
    exact tri_lt hj' hi'
  · rintro ⟨i1, j1⟩ ⟨hj1, hi1⟩ ⟨i2, j2⟩ ⟨hj2, hi2⟩ he
    have hj1' : j1 ≤ i1 := hj1
    have hj2' : j2 ≤ i2 := hj2
    have he' : getLabelIndex i1 j1 = getLabelIndex i2 j2 := he
    rw [getLabelIndex_of_ge i1 j1 hj1',
      getLabelIndex_of_ge i2 j2 hj2'] at he'
    obtain ⟨h1, h2⟩ := tri_inj hj1' hj2' he'
    simp [h1, h2]
  · intro k hk
    have hk' : k < n * (n + 1) / 2 := hk
    obtain ⟨i, j, h1, h2, h3⟩ := tri_surj n k hk'
    refine ⟨(i, j), ⟨h1, h2⟩, ?_⟩
    show getLabelIndex i j = k
    rw [getLabelIndex_of_ge i j h1]
    exact h3

/-- Witness for C7: concrete instances of the swap and the closed
formula. -/
theorem c7_witness :
    getLabelIndex 1 3 = getLabelIndex 3 1 ∧
      getLabelIndex 3 1 = 3 * (3 + 1) / 2 + 1 :=
  ⟨(c7_pair_index_bijection 4).1 1 3 (by decide),
    (c7_pair_index_bijection 4).2.1 3 1 (by decide)⟩

/-!
## Claim C8
-/

/-- Claim C8: requesting 2-dimensional refinement on a directed graph, or
history recording together with 2-dimensional refinement, aborts during
construction (`new_2wl` panics before any refinement computation), so the
entry points propagate the error and produce no result. -/
theorem c8_2wl_unsupported_combinations_abort :
    (∀ (n : Nat) (directed : Bool),
      new2wlCheck n directed true =
        Except.error "Subgraph hashing is not supported for 2-dimensional WL") ∧
    (∀ n : Nat, new2wlCheck n true false =
      Except.error
        "Directed graphs are not yet supported for 2-dimensional WL") ∧
    (∀ (N E : Type) (g : WLGraph N E) (nIters fuel : Nat),
      g.directed = true →
        iter2wl g nIters = Except.error
          "Directed graphs are not yet supported for 2-dimensional WL" ∧
        invariant2wl g fuel = Except.error
          "Directed graphs are not yet supported for 2-dimensional WL") := by
  refine ⟨fun n directed => rfl, fun n => rfl, ?_⟩
  intro N E g nIters fuel hdir
  constructor
  · unfold iter2wl iter2wlCore new2wlCheck
    rw [hdir]
    rfl
  · unfold invariant2wl invariant2wlCore new2wlCheck
    rw [hdir]
    rfl

/-- Witness for C8: a concrete directed two-node graph is rejected by both
2-WL entry points. -/
theorem c8_witness :
    iter2wl (WLGraph.mk 2 true [(0, 1)] ([] : List Unit) ([] : List Unit))
        1 = Except.error
          "Directed graphs are not yet supported for 2-dimensional WL" ∧
      invariant2wl
        (WLGraph.mk 2 true [(0, 1)] ([] : List Unit) ([] : List Unit)) 1 =
          Except.error
            "Directed graphs are not yet supported for 2-dimensional WL" :=
  c8_2wl_unsupported_combinations_abort.2.2 Unit Unit
    (WLGraph.mk 2 true [(0, 1)] [] []) 1 1 rfl

/-!
## Claims C1 and C2: evaluation of the code at the failing inputs

The directed branch of `calculate_new_labels` pushes the incoming
neighbour labels in petgraph's enumeration order and never sorts them
(only `outgoing_hashes.sort_unstable()` is called), so the computed label
— and hence the final invariant — depends on the storage order of the
incoming edges, which an edge-preserving relabelling does not preserve.
-/

/-- Evaluation for claim C1 at the failing input: `swap12` is an
involution on the node indices `0..4`, the second graph's edge multiset is
exactly the `swap12`-image of the first graph's (so the graphs are
isomorphic), the node and edge weights agree, yet `invariant` returns
different values. -/
theorem c1_relabelled_directed_graph_changes_invariant :
    (∀ v, v < 4 → swap12 (swap12 v) = v) ∧
    Multiset.map (fun e => (swap12 e.1, swap12 e.2))
        (↑[(1, 0), (2, 0), (3, 1)] : Multiset (Nat × Nat)) =
      (↑[(2, 0), (1, 0), (3, 2)] : Multiset (Nat × Nat)) ∧
    (↑[(2, 0), (1, 0), (3, 2)] : Multiset (Nat × Nat)) =
      (↑[(1, 0), (2, 0), (3, 2)] : Multiset (Nat × Nat)) ∧
    invariant (WLGraph.mk 4 true [(1, 0), (2, 0), (3, 1)]
        ([] : List Unit) ([] : List Unit)) 8 ≠
      invariant (WLGraph.mk 4 true [(1, 0), (2, 0), (3, 2)]
        ([] : List Unit) ([] : List Unit)) 8 := by
  refine ⟨by decide, by decide, by decide, by decide⟩

/-- Evaluation for claim C2 at the failing input: at node 0 of the
directed graph `[(1,0),(2,0),(3,1)]` after initial labelling, the
incoming label list as gathered by the code is not ascending, and the
label computed by `calculate_new_labels` differs from the
specification-side value that sorts both lists. -/
theorem c2_incoming_list_not_sorted :
    ((inNeighbors [(1, 0), (2, 0), (3, 1)] 0).map
        (fun u => (initialLabels1 42 true [(1, 0), (2, 0), (3, 1)] 4).getD
          u 0) ≠
      sortNat ((inNeighbors [(1, 0), (2, 0), (3, 1)] 0).map
        (fun u => (initialLabels1 42 true [(1, 0), (2, 0), (3, 1)] 4).getD
          u 0))) ∧
    nodeNewLabel 42 true [(1, 0), (2, 0), (3, 1)]
        (initialLabels1 42 true [(1, 0), (2, 0), (3, 1)] 4) 0 ≠
      specDirectedNodeLabel 42 [(1, 0), (2, 0), (3, 1)]
        (initialLabels1 42 true [(1, 0), (2, 0), (3, 1)] 4) 0 := by
  refine ⟨by decide, by decide⟩

/-!
## Claim C9
-/

/-- Counterexample to claim C9 as stated: for the documented example graph
with budget 4, node 1's recorded sequence has 4 entries while 3 rounds
were applied — one entry longer, not shorter. -/
theorem c9_counterexample :
    (((run1Fixed 8 false [(1, 2), (2, 3), (2, 4), (3, 5), (4, 6), (5, 7),
          (6, 7)] 42 4 true).subgraphs.getD []).getD 1 []).length = 4 ∧
    (run1Fixed 8 false [(1, 2), (2, 3), (2, 4), (3, 5), (4, 6), (5, 7),
        (6, 7)] 42 4 true).applied = 3 ∧
    ¬ ((((run1Fixed 8 false [(1, 2), (2, 3), (2, 4), (3, 5), (4, 6),
          (5, 7), (6, 7)] 42 4 true).subgraphs.getD []).getD 1 []).length =
        (run1Fixed 8 false [(1, 2), (2, 3), (2, 4), (3, 5), (4, 6), (5, 7),
          (6, 7)] 42 4 true).applied - 1) := by
  refine ⟨by decide, by decide, by decide⟩

/-- Claim C9 as amended: every node's recorded sequence is
`[initial_label, label_after_round_1, …]`: it begins with the node's
initial label, gains exactly one entry per applied round — hence it is one
entry LONGER than the number of rounds actually applied — and a
stabilising-but-unapplied round contributes no entry. -/
theorem c9_history_shape :
    (∀ (n : Nat) (directed : Bool) (edges : List (Nat × Nat))
        (seed b : Nat), 1 ≤ b → b ≤ n →
      (run1Fixed n directed edges seed b true).subgraphs =
          some (histMat (calcNew1 seed directed edges n)
            (initialLabels1 seed directed edges n) (b - 1)) ∧
        (run1Fixed n directed edges seed b true).applied = b - 1) ∧
    (∀ (n : Nat) (directed : Bool) (edges : List (Nat × Nat))
        (seed fuel : Nat) (st' : RunState),
      run1Auto n directed edges seed true fuel = some st' →
      ∃ k, st'.subgraphs = some (histMat (calcNew1 seed directed edges n)
            (initialLabels1 seed directed edges n) k) ∧
        st'.applied = k ∧ st'.rounds = k + 1) ∧
    (∀ (f : List Nat → List Nat) (L0 : List Nat) (k v : Nat),
        v < L0.length →
      (histMat f L0 k).getD v [] =
          (List.range (k + 1)).map (fun i => (f^[i] L0).getD v 0) ∧
        ((histMat f L0 k).getD v []).length = k + 1 ∧
        ((histMat f L0 k).getD v []).getD 0 0 = L0.getD v 0) := by
  refine ⟨?_, ?_, ?_⟩
  · intro n directed edges seed b h1 h2
    rw [run1Fixed_eq, clampNiters_of_le b n h1 h2]
    have hsub := stepState_iterate_subgraphs
      (calcNew1 seed directed edges n)
      (initialLabels1 seed directed edges n)
      (fun l => by rw [calcNew1_length, initialLabels1_length]) (b - 1)
    have hc := stepState_iterate_counters (calcNew1 seed directed edges n)
      (b - 1) (initState (initialLabels1 seed directed edges n) true)
    exact ⟨hsub, by simpa [initState] using hc.2⟩
  · intro n directed edges seed fuel st' h
    obtain ⟨k, _, _, hr, ha, hs⟩ :=
      run1Auto_spec n directed edges seed true fuel st' h
    exact ⟨k, hs rfl, ha, hr⟩
  · intro f L0 k v hv
    have hrow : (histMat f L0 k).getD v [] =
        (List.range (k + 1)).map (fun i => (f^[i] L0).getD v 0) := by
      unfold histMat
      rw [List.getD_eq_getElem _ _ (by simpa using hv)]
      rw [List.getElem_map, List.getElem_range]
    refine ⟨hrow, by rw [hrow]; simp, ?_⟩
    rw [hrow]
    have : (0 : Nat) < k + 1 := by omega
    rw [List.getD_eq_getElem _ _ (by simp)]
    rw [List.getElem_map, List.getElem_range]
    simp

/-- Witness for the amended C9: concrete instantiation on the documented
example graph with budget 4. -/
theorem c9_history_shape_witness :
    (run1Fixed 8 false [(1, 2), (2, 3), (2, 4), (3, 5), (4, 6), (5, 7),
        (6, 7)] 42 4 true).subgraphs =
      some (histMat (calcNew1 42 false [(1, 2), (2, 3), (2, 4), (3, 5),
          (4, 6), (5, 7), (6, 7)] 8)
        (initialLabels1 42 false [(1, 2), (2, 3), (2, 4), (3, 5), (4, 6),
          (5, 7), (6, 7)] 8) (4 - 1)) :=
  (c9_history_shape.1 8 false [(1, 2), (2, 3), (2, 4), (3, 5), (4, 6),
    (5, 7), (6, 7)] 42 4 (by decide) (by decide)).1

/-!
## Claim C5
-/

/-- Counterexample to claim C5 as stated: on the zero-node graph the 2-WL
entry points abort (the `usize` subtraction in `new_2wl` wraps and the
`checked_pow` guard panics), rather than returning a result. -/
theorem c5_counterexample :
    iter2wl (WLGraph.mk 0 false ([] : List (Nat × Nat)) ([] : List Unit)
        ([] : List Unit)) 1 =
      Except.error "This grapsize exceeds support for 2-dimensional WL" ∧
    invariant2wl (WLGraph.mk 0 false ([] : List (Nat × Nat))
        ([] : List Unit) ([] : List Unit)) 5 =
      Except.error "This grapsize exceeds support for 2-dimensional WL" :=
  ⟨rfl, rfl⟩

theorem stabilised_replicate (n1 n2 a b : Nat) :
    stabilised (List.replicate n1 a) (List.replicate n2 b) = true := by
  unfold stabilised
  rw [List.zip_replicate]
  generalize min n1 n2 = k
  cases k with
  | zero => rfl
  | succ m =>
    have hlook : lookupA a [(a, b)] = some b := by simp [lookupA]
    have haux : ∀ j, stabilisedAux [(a, b)]
        (List.replicate j (a, b)) = true := by
      intro j
      induction j with
      | zero => rfl
      | succ i ihi =>
        simp only [List.replicate_succ, stabilisedAux, hlook,
          beq_self_eq_true, if_true]
        exact ihi
    simp only [List.replicate_succ, stabilisedAux, lookupA]
    exact haux m

/-- On an edgeless graph all initial labels agree. -/
theorem initialLabels1_nil (seed : Nat) (directed : Bool) (n : Nat) :
    ∃ a, initialLabels1 seed directed [] n = List.replicate n a := by
  cases directed with
  | false =>
    refine ⟨0, ?_⟩
    unfold initialLabels1 undirNeighbors outNeighbors
    simp only [List.filter_nil, List.map_nil, List.reverse_nil,
      List.nil_append, List.length_nil, Bool.not_false, if_pos rfl]
    rw [if_pos trivial, List.map_const' (List.range n) 0, List.length_range]
  | true =>
    refine ⟨XXH.oneshot seed [0, 0], ?_⟩
    unfold initialLabels1 outNeighbors inNeighbors
    simp only [List.filter_nil, List.map_nil, List.reverse_nil,
      List.length_nil, Bool.not_true, Bool.false_eq_true, if_false]
    rw [List.map_const' (List.range n) (XXH.oneshot seed [0, 0]),
      List.length_range]

/-- On an edgeless graph one round sends a constant buffer to a constant
buffer. -/
theorem calcNew1_nil_const (seed : Nat) (directed : Bool) (n a : Nat) :
    ∃ b, calcNew1 seed directed [] n (List.replicate n a) =
      List.replicate n b := by
  have hgetD : ∀ v, v ∈ List.range n →
      (List.replicate n a).getD v 0 = a := by
    intro v hv
    have hv' : v < n := List.mem_range.mp hv
    rw [List.getD_eq_getElem _ _ (by simpa using hv'), List.getElem_replicate]
  cases directed with
  | false =>
    refine ⟨XXH.oneshot seed [a], ?_⟩
    unfold calcNew1
    rw [List.map_congr_left (fun v hv => ?_), List.map_const',
      List.length_range]
    unfold nodeNewLabel undirNeighbors outNeighbors
    simp only [List.filter_nil, List.map_nil, List.reverse_nil,
      List.nil_append, Bool.not_false, if_pos rfl]
    rw [hgetD v hv]
    rfl
  | true =>
    refine ⟨XXH.oneshot seed [XXH.oneshot seed [], XXH.oneshot seed [], a],
      ?_⟩
    unfold calcNew1
    rw [List.map_congr_left (fun v hv => ?_), List.map_const',
      List.length_range]
    unfold nodeNewLabel inNeighbors outNeighbors
    simp only [List.filter_nil, List.map_nil, List.reverse_nil]
    rw [hgetD v hv]
    rfl

/-- A length-one buffer stabilises against anything: a single pair can
never contradict the first-recorded mapping. -/
theorem stabilised_of_length_one (l l' : List Nat) (h : l.length = 1) :
    stabilised l l' = true := by
  obtain ⟨a, ha⟩ : ∃ a, l = [a] := by
    cases l with
    | nil => simp at h
    | cons x t =>
      cases t with
      | nil => exact ⟨x, rfl⟩
      | cons y u =>
        simp only [List.length_cons] at h
        omega
  subst ha
  cases l' with
  | nil => rfl
  | cons b t => rfl

/-- If the refinement stabilises at some computed round, the auto-stop
loop terminates once given that much fuel. -/
theorem loopWL_auto_terminates (calcF : List Nat → List Nat)
    (niters : Nat) :
    ∀ (k fuel its : Nat) (st : RunState),
      stabilised (calcF^[k] st.labels) (calcF^[k + 1] st.labels) = true →
      k < fuel →
      ∃ st', loopWL calcF true niters fuel its st = some st' := by
  intro k
  induction k with
  | zero =>
    intro fuel its st hs hk
    match fuel, hk with
    | fuel + 1, _ =>
      have hs' : stabilised st.labels (calcF st.labels) = true := by
        simpa using hs
      refine ⟨{ st with rounds := st.rounds + 1 }, ?_⟩
      rw [loopWL_succ, if_pos (by simp)]
      simp only [Bool.true_and, hs', if_true]
  | succ k ih =>
    intro fuel its st hs hk
    match fuel, hk with
    | fuel + 1, hk =>
      by_cases hst : stabilised st.labels (calcF st.labels) = true
      · refine ⟨{ st with rounds := st.rounds + 1 }, ?_⟩
        rw [loopWL_succ, if_pos (by simp)]
        simp only [Bool.true_and, hst, if_true]
      · have hs2 : stabilised (calcF^[k] (stepState calcF st).labels)
            (calcF^[k + 1] (stepState calcF st).labels) = true := by
          have hlab : (stepState calcF st).labels = calcF st.labels := rfl
          rw [hlab, ← Function.iterate_succ_apply,
            ← Function.iterate_succ_apply]
          exact hs
        obtain ⟨st', hst'⟩ := ih fuel (its + 1) (stepState calcF st) hs2
          (by omega)
        refine ⟨st', ?_⟩
        have hstf : stabilised st.labels (calcF st.labels) = false := by
          simpa using hst
        rw [loopWL_succ, if_pos (by simp)]
        simp only [Bool.true_and, hstf, Bool.false_eq_true, if_false]
        rw [updateGraph_bump]
        exact hst'

/-- Auto-stop 1-WL runs terminate whenever some computed round
stabilises. -/
theorem run1Auto_total_of_stab (n : Nat) (directed : Bool)
    (edges : List (Nat × Nat)) (seed : Nat) (sub : Bool) (k fuel : Nat)
    (hs : stabilised ((calcNew1 seed directed edges n)^[k]
        (initialLabels1 seed directed edges n))
      ((calcNew1 seed directed edges n)^[k + 1]
        (initialLabels1 seed directed edges n)) = true)
    (hk : k < fuel) :
    ∃ st', run1Auto n directed edges seed sub fuel = some st' :=
  loopWL_auto_terminates (calcNew1 seed directed edges n)
    (clampNiters 0 n) k fuel 1
    (initState (initialLabels1 seed directed edges n) sub) hs hk

theorem getD_replicate_zero (m i : Nat) :
    (List.replicate m (0 : Nat)).getD i 0 = 0 := by
  by_cases h : i < m
  · rw [List.getD_eq_getElem _ _ (by simpa using h),
      List.getElem_replicate]
  · rw [List.getD_eq_default _ _
      (by simp only [List.length_replicate]; omega)]

/-- Over an all-zero pair-label buffer, every pair gets the same new
label. -/
theorem pairNewLabel_const (seed n m l r : Nat) :
    pairNewLabel seed n (List.replicate m 0) l r =
      pairNewLabel seed n (List.replicate m 0) 0 0 := by
  unfold pairNewLabel
  simp only [getD_replicate_zero]

/-- On an edgeless graph all initial 2-WL labels are zero. -/
theorem initialLabels2_nil (n : Nat) :
    initialLabels2 [] n =
      List.replicate (initialLabels2 [] n).length 0 := by
  apply List.eq_replicate_of_mem
  intro b hb
  unfold initialLabels2 at hb
  rw [List.mem_flatMap] at hb
  obtain ⟨left, _, hb⟩ := hb
  rw [List.mem_map] at hb
  obtain ⟨right, _, hb⟩ := hb
  rw [← hb]
  unfold edgesConnectingCount
  simp

/-- A 2-WL round sends an all-zero buffer to a constant buffer. -/
theorem calcNew2_replicate (seed n m : Nat) :
    calcNew2 seed n (List.replicate m 0) =
      List.replicate (calcNew2 seed n (List.replicate m 0)).length
        (pairNewLabel seed n (List.replicate m 0) 0 0) := by
  apply List.eq_replicate_of_mem
  intro b hb
  unfold calcNew2 at hb
  rw [List.mem_flatMap] at hb
  obtain ⟨left, _, hb⟩ := hb
  rw [List.mem_map] at hb
  obtain ⟨right, _, hb⟩ := hb
  rw [← hb]
  exact pairNewLabel_const seed n m left right

/-- The first computed 2-WL round on an edgeless graph stabilises. -/
theorem stab2_nil (seed n : Nat) :
    stabilised (initialLabels2 [] n)
      (calcNew2 seed n (initialLabels2 [] n)) = true := by
  rw [initialLabels2_nil]
  rw [calcNew2_replicate]
  exact stabilised_replicate _ _ _ _

/-- `new_2wl` succeeds on every undirected graph with `1 ≤ n ≤ 2^32`
nodes. -/
theorem new2wlCheck_isOk (n : Nat) (h1 : 1 ≤ n) (h2 : n ≤ 2 ^ 32) :
    ∃ t, new2wlCheck n false false = Except.ok t := by
  have hm : (n + XXH.M64 - 1) % XXH.M64 = n - 1 := by
    have he : n + XXH.M64 - 1 = (n - 1) + XXH.M64 := by omega
    rw [he, Nat.add_mod_right]
    exact Nat.mod_eq_of_lt (by unfold XXH.M64; omega)
  have hsq : ¬ ((n - 1) ^ 2 ≥ XXH.M64) := by
    have hle : n - 1 ≤ 2 ^ 32 - 1 := by omega
    have h4 : (n - 1) ^ 2 ≤ (2 ^ 32 - 1) ^ 2 := Nat.pow_le_pow_left hle 2
    have h5 : (2 ^ 32 - 1) ^ 2 < XXH.M64 := by unfold XXH.M64; norm_num
    omega
  unfold new2wlCheck
  simp only [Bool.false_eq_true, if_false, hm]
  rw [if_neg hsq]
  exact ⟨_, rfl⟩

/-- Auto-stop 2-WL runs construct successfully and terminate with a
result whenever some computed round stabilises. -/
theorem invariant2wl_total_of_stab (n : Nat) (edges : List (Nat × Nat))
    (k fuel : Nat) (h1 : 1 ≤ n) (h2 : n ≤ 2 ^ 32)
    (hs : stabilised ((calcNew2 42 n)^[k] (initialLabels2 edges n))
      ((calcNew2 42 n)^[k + 1] (initialLabels2 edges n)) = true)
    (hk : k < fuel) :
    ∃ v, invariant2wlCore n false edges fuel = Except.ok (some v) := by
  obtain ⟨t, ht⟩ := new2wlCheck_isOk n h1 h2
  obtain ⟨st', hst'⟩ := loopWL_auto_terminates (calcNew2 42 n)
    (clampNiters 0 t) k fuel 1 (initState (initialLabels2 edges n) false)
    hs hk
  have hr : runWL (calcNew2 42 n) true (clampNiters 0 t) fuel
      (initState (initialLabels2 edges n) false) = some st' := hst'
  refine ⟨getResults 42 st'.labels, ?_⟩
  unfold invariant2wlCore
  rw [ht]
  show Except.ok ((runWL (calcNew2 42 n) true (clampNiters 0 t) fuel
      (initState (initialLabels2 edges n) false)).map
    (fun st => getResults 42 st.labels)) =
    Except.ok (some (getResults 42 st'.labels))
  rw [hr]
  rfl

/-- `invariant` and `neighbourhood_stable` return results whenever some
computed round stabilises, with one history sequence per node. -/
theorem invariant_total_of_stab {N E : Type} (g : WLGraph N E)
    (k fuel : Nat)
    (hs : stabilised ((calcNew1 42 g.directed g.edges g.nodeCount)^[k]
        (initialLabels1 42 g.directed g.edges g.nodeCount))
      ((calcNew1 42 g.directed g.edges g.nodeCount)^[k + 1]
        (initialLabels1 42 g.directed g.edges g.nodeCount)) = true)
    (hk : k < fuel) :
    (∃ v, invariant g fuel = some v) ∧
      (∃ H, neighbourhoodStable g fuel = some H ∧
        H.length = g.nodeCount) := by
  constructor
  · obtain ⟨st', hst'⟩ := run1Auto_total_of_stab g.nodeCount g.directed
      g.edges 42 false k fuel hs hk
    refine ⟨getResults 42 st'.labels, ?_⟩
    unfold invariant invariantCore
    rw [hst']
    rfl
  · obtain ⟨st', hst'⟩ := run1Auto_total_of_stab g.nodeCount g.directed
      g.edges 42 true k fuel hs hk
    obtain ⟨k', _, _, _, _, hsub⟩ := run1Auto_spec g.nodeCount g.directed
      g.edges 42 true fuel st' hst'
    refine ⟨st'.subgraphs.getD [], ?_, ?_⟩
    · unfold neighbourhoodStable neighbourhoodStableCore
      rw [hst']
      rfl
    · rw [hsub rfl]
      simp [histMat, initialLabels1_length]

/-- Claim C5 as amended: no public entry point aborts on a graph with at
least one node, and each returns a well-defined result in every case in
which its loop can produce one.  Fixed-count mode (`invariant_iters`,
`neighbourhood_hash`) terminates within its clamped budget on every
graph, returning the invariant hash of the final labels resp. exactly one
history sequence per node.  The 2-WL entry points accept every undirected
graph with `1 ≤ n ≤ 2^32` nodes without panicking, `iter_2wl` returning
an invariant hash.  The auto-stop entry points (`invariant`,
`neighbourhood_stable`, `invariant_2wl`) return a result whenever some
computed round stabilises — the only termination the code's unbounded
loop offers — and this provably happens at the first computed round for
every single-node graph (with any self-loops and parallel edges) and for
every fully disconnected graph.  Zero-node graphs abort in the 2-WL
entry points (see the counterexample). -/
theorem c5_degenerate_inputs :
    (∀ (N E : Type) (g : WLGraph N E) (b : Nat),
      (∃ st : RunState,
        runWL (calcNew1 42 g.directed g.edges g.nodeCount) false
            (clampNiters b g.nodeCount) (clampNiters b g.nodeCount + 1)
            (initState (initialLabels1 42 g.directed g.edges g.nodeCount)
              false) = some st ∧
        invariantIters g b = getResults 42 st.labels) ∧
      neighbourhoodHash g b =
        histMat (calcNew1 42 g.directed g.edges g.nodeCount)
          (initialLabels1 42 g.directed g.edges g.nodeCount)
          (clampNiters b g.nodeCount - 1) ∧
      (neighbourhoodHash g b).length = g.nodeCount) ∧
    (∀ (N E : Type) (g : WLGraph N E) (nIters fuel : Nat),
      g.directed = false → 1 ≤ g.nodeCount → g.nodeCount ≤ 2 ^ 32 →
        (∃ v, iter2wl g nIters = Except.ok v) ∧
        (∃ r, invariant2wl g fuel = Except.ok r)) ∧
    (∀ (N E : Type) (g : WLGraph N E) (k fuel : Nat),
      stabilised ((calcNew1 42 g.directed g.edges g.nodeCount)^[k]
          (initialLabels1 42 g.directed g.edges g.nodeCount))
        ((calcNew1 42 g.directed g.edges g.nodeCount)^[k + 1]
          (initialLabels1 42 g.directed g.edges g.nodeCount)) = true →
      k < fuel →
        (∃ v, invariant g fuel = some v) ∧
        (∃ H, neighbourhoodStable g fuel = some H ∧
          H.length = g.nodeCount)) ∧
    (∀ (N E : Type) (g : WLGraph N E) (k fuel : Nat),
      g.directed = false → 1 ≤ g.nodeCount → g.nodeCount ≤ 2 ^ 32 →
      stabilised ((calcNew2 42 g.nodeCount)^[k]
          (initialLabels2 g.edges g.nodeCount))
        ((calcNew2 42 g.nodeCount)^[k + 1]
          (initialLabels2 g.edges g.nodeCount)) = true →
      k < fuel →
        ∃ v, invariant2wl g fuel = Except.ok (some v)) ∧
    (∀ (N E : Type) (g : WLGraph N E) (fuel : Nat),
      g.nodeCount = 1 → 1 ≤ fuel →
        (∃ v, invariant g fuel = some v) ∧
        (∃ H, neighbourhoodStable g fuel = some H ∧ H.length = 1) ∧
        (g.directed = false →
          ∃ v, invariant2wl g fuel = Except.ok (some v))) ∧
    (∀ (N E : Type) (g : WLGraph N E) (fuel : Nat),
      g.edges = [] → 1 ≤ fuel →
        (∃ v, invariant g fuel = some v) ∧
        (∃ H, neighbourhoodStable g fuel = some H ∧
          H.length = g.nodeCount) ∧
        (g.directed = false → 1 ≤ g.nodeCount → g.nodeCount ≤ 2 ^ 32 →
          ∃ v, invariant2wl g fuel = Except.ok (some v))) := by
  refine ⟨?_, ?_, ?_, ?_, ?_, ?_⟩
  · intro N E g b
    refine ⟨⟨(stepState (calcNew1 42 g.directed g.edges g.nodeCount))^[
        clampNiters b g.nodeCount - 1]
        (initState (initialLabels1 42 g.directed g.edges g.nodeCount)
          false), ?_, ?_⟩, ?_, ?_⟩
    · exact loopWL_fixed (calcNew1 42 g.directed g.edges g.nodeCount)
        (clampNiters b g.nodeCount) (clampNiters b g.nodeCount - 1)
        (clampNiters b g.nodeCount + 1) 1
        (initState (initialLabels1 42 g.directed g.edges g.nodeCount)
          false) (by omega) (by omega)
    · unfold invariantIters invariantItersCore
      rw [run1Fixed_eq]
    · unfold neighbourhoodHash neighbourhoodHashCore
      rw [run1Fixed_eq, stepState_iterate_subgraphs
        (calcNew1 42 g.directed g.edges g.nodeCount)
        (initialLabels1 42 g.directed g.edges g.nodeCount)
        (fun l => by rw [calcNew1_length, initialLabels1_length]) _]
      rfl
    · unfold neighbourhoodHash neighbourhoodHashCore
      rw [run1Fixed_eq, stepState_iterate_subgraphs
        (calcNew1 42 g.directed g.edges g.nodeCount)
        (initialLabels1 42 g.directed g.edges g.nodeCount)
        (fun l => by rw [calcNew1_length, initialLabels1_length]) _]
      simp [histMat, initialLabels1_length]
  · intro N E g nIters fuel hdir h1 h2
    obtain ⟨t, ht0⟩ := new2wlCheck_isOk g.nodeCount h1 h2
    have ht : new2wlCheck g.nodeCount g.directed false = Except.ok t := by
      rw [hdir]
      exact ht0
    constructor
    · refine ⟨getResults 42
        (run2Fixed g.nodeCount g.edges 42 nIters t).labels, ?_⟩
      unfold iter2wl iter2wlCore
      rw [ht]
      rfl
    · refine ⟨(runWL (calcNew2 42 g.nodeCount) true (clampNiters 0 t) fuel
          (initState (initialLabels2 g.edges g.nodeCount) false)).map
        (fun st => getResults 42 st.labels), ?_⟩
      unfold invariant2wl invariant2wlCore
      rw [ht]
      rfl
  · intro N E g k fuel hs hk
    exact invariant_total_of_stab g k fuel hs hk
  · intro N E g k fuel hdir h1 h2 hs hk
    obtain ⟨v, hv⟩ := invariant2wl_total_of_stab g.nodeCount g.edges k
      fuel h1 h2 hs hk
    refine ⟨v, ?_⟩
    unfold invariant2wl
    rw [hdir]
    exact hv
  · intro N E g fuel h1 hf
    have hs1 : stabilised
        ((calcNew1 42 g.directed g.edges g.nodeCount)^[0]
          (initialLabels1 42 g.directed g.edges g.nodeCount))
        ((calcNew1 42 g.directed g.edges g.nodeCount)^[0 + 1]
          (initialLabels1 42 g.directed g.edges g.nodeCount)) = true := by
      simp only [Function.iterate_zero_apply, zero_add,
        Function.iterate_one]
      exact stabilised_of_length_one _ _
        (by rw [initialLabels1_length]; exact h1)
    obtain ⟨hv, H, hH, hlen⟩ := invariant_total_of_stab g 0 fuel hs1
      (by omega)
    refine ⟨hv, ⟨H, hH, by rw [hlen, h1]⟩, ?_⟩
    intro hdir
    have hs2 : stabilised
        ((calcNew2 42 g.nodeCount)^[0]
          (initialLabels2 g.edges g.nodeCount))
        ((calcNew2 42 g.nodeCount)^[0 + 1]
          (initialLabels2 g.edges g.nodeCount)) = true := by
      rw [h1]
      simp only [Function.iterate_zero_apply, zero_add,
        Function.iterate_one]
      exact stabilised_of_length_one _ _ rfl
    obtain ⟨v, hv2⟩ := invariant2wl_total_of_stab g.nodeCount g.edges 0
      fuel (by omega) (by rw [h1]; norm_num) hs2 (by omega)
    refine ⟨v, ?_⟩
    unfold invariant2wl
    rw [hdir]
    exact hv2
  · intro N E g fuel he hf
    obtain ⟨a, ha⟩ := initialLabels1_nil 42 g.directed g.nodeCount
    obtain ⟨b, hb⟩ := calcNew1_nil_const 42 g.directed g.nodeCount a
    have hs1 : stabilised
        ((calcNew1 42 g.directed g.edges g.nodeCount)^[0]
          (initialLabels1 42 g.directed g.edges g.nodeCount))
        ((calcNew1 42 g.directed g.edges g.nodeCount)^[0 + 1]
          (initialLabels1 42 g.directed g.edges g.nodeCount)) = true := by
      rw [he]
      simp only [Function.iterate_zero_apply, zero_add,
        Function.iterate_one]
      rw [ha, hb]
      exact stabilised_replicate _ _ _ _
    obtain ⟨hv, hH⟩ := invariant_total_of_stab g 0 fuel hs1 (by omega)
    refine ⟨hv, hH, ?_⟩
    intro hdir h1 h2
    have hs2 : stabilised
        ((calcNew2 42 g.nodeCount)^[0]
          (initialLabels2 g.edges g.nodeCount))
        ((calcNew2 42 g.nodeCount)^[0 + 1]
          (initialLabels2 g.edges g.nodeCount)) = true := by
      rw [he]
      simp only [Function.iterate_zero_apply, zero_add,
        Function.iterate_one]
      exact stab2_nil 42 g.nodeCount
    obtain ⟨v, hv2⟩ := invariant2wl_total_of_stab g.nodeCount g.edges 0
      fuel h1 h2 hs2 (by omega)
    refine ⟨v, ?_⟩
    unfold invariant2wl
    rw [hdir]
    exact hv2

/-- Witness for the amended C5 at concrete degenerate graphs: a graph
with parallel self-loops and isolated nodes for 2-WL, the path graph for
the stabilisation-conditional part (it stabilises at computed round 2), a
single node with parallel self-loops, and an edgeless directed graph. -/
theorem c5_degenerate_inputs_witness :
    (∃ v, iter2wl (WLGraph.mk 3 false [(1, 1), (1, 1)] ([] : List Unit)
        ([] : List Unit)) 2 = Except.ok v) ∧
    (∃ v, invariant (WLGraph.mk 5 false [(0, 1), (1, 2), (2, 3), (3, 4)]
        ([] : List Unit) ([] : List Unit)) 4 = some v) ∧
    (∃ H, neighbourhoodStable (WLGraph.mk 5 false
        [(0, 1), (1, 2), (2, 3), (3, 4)] ([] : List Unit)
        ([] : List Unit)) 4 = some H ∧ H.length = 5) ∧
    (∃ v, invariant (WLGraph.mk 1 false [(0, 0), (0, 0)] ([] : List Unit)
        ([] : List Unit)) 3 = some v) ∧
    (∃ v, invariant2wl (WLGraph.mk 1 false [(0, 0), (0, 0)]
        ([] : List Unit) ([] : List Unit)) 3 = Except.ok (some v)) ∧
    (∃ v, invariant (WLGraph.mk 4 true ([] : List (Nat × Nat))
        ([] : List Unit) ([] : List Unit)) 2 = some v) :=
  ⟨(c5_degenerate_inputs.2.1 Unit Unit
      (WLGraph.mk 3 false [(1, 1), (1, 1)] [] []) 2 6 rfl (by decide)
      (by norm_num)).1,
    (c5_degenerate_inputs.2.2.1 Unit Unit
      (WLGraph.mk 5 false [(0, 1), (1, 2), (2, 3), (3, 4)] [] []) 1 4
      (by decide) (by decide)).1,
    (c5_degenerate_inputs.2.2.1 Unit Unit
      (WLGraph.mk 5 false [(0, 1), (1, 2), (2, 3), (3, 4)] [] []) 1 4
      (by decide) (by decide)).2,
    (c5_degenerate_inputs.2.2.2.2.1 Unit Unit
      (WLGraph.mk 1 false [(0, 0), (0, 0)] [] []) 3 rfl (by decide)).1,
    (c5_degenerate_inputs.2.2.2.2.1 Unit Unit
      (WLGraph.mk 1 false [(0, 0), (0, 0)] [] []) 3 rfl
      (by decide)).2.2 rfl,
    (c5_degenerate_inputs.2.2.2.2.2 Unit Unit
      (WLGraph.mk 4 true [] [] []) 2 rfl (by decide)).1⟩

/-!
## Claim C10
-/

/-- Counterexample to claim C10 as stated: two directed graphs with the
same node count, directedness and edge multiset (merely stored in a
different order) yield different invariants, because the directed 1-WL
round hashes the incoming label list in storage order.  The claim's
equality fails even with identical weights, so "same multiset of edges"
is not sufficient. -/
theorem c10_counterexample :
    (WLGraph.mk 4 true [(1, 0), (2, 0), (3, 1)] [10, 11, 12, 13]
        [7, 7, 7]).nodeCount =
      (WLGraph.mk 4 true [(2, 0), (1, 0), (3, 1)] [20, 21, 22, 23]
        [9, 9, 9]).nodeCount ∧
    (WLGraph.mk 4 true [(1, 0), (2, 0), (3, 1)] [10, 11, 12, 13]
        [7, 7, 7]).directed =
      (WLGraph.mk 4 true [(2, 0), (1, 0), (3, 1)] [20, 21, 22, 23]
        [9, 9, 9]).directed ∧
    (↑(WLGraph.mk 4 true [(1, 0), (2, 0), (3, 1)] [10, 11, 12, 13]
          [7, 7, 7]).edges : Multiset (Nat × Nat)) =
      ↑(WLGraph.mk 4 true [(2, 0), (1, 0), (3, 1)] [20, 21, 22, 23]
          [9, 9, 9]).edges ∧
    invariant (WLGraph.mk 4 true [(1, 0), (2, 0), (3, 1)] [10, 11, 12, 13]
        [7, 7, 7]) 8 ≠
      invariant (WLGraph.mk 4 true [(2, 0), (1, 0), (3, 1)]
        [20, 21, 22, 23] [9, 9, 9]) 8 ∧
    invariantIters (WLGraph.mk 4 true [(1, 0), (2, 0), (3, 1)]
        [10, 11, 12, 13] [7, 7, 7]) 2 ≠
      invariantIters (WLGraph.mk 4 true [(2, 0), (1, 0), (3, 1)]
        [20, 21, 22, 23] [9, 9, 9]) 2 := by
  refine ⟨rfl, rfl, by decide, by decide, by decide⟩

theorem sortNat_perm_eq {l1 l2 : List Nat} (h : l1.Perm l2) :
    sortNat l1 = sortNat l2 :=
  List.eq_of_perm_of_sorted
    ((List.perm_insertionSort _ l1).trans
      (h.trans (List.perm_insertionSort _ l2).symm))
    (List.sorted_insertionSort _ l1) (List.sorted_insertionSort _ l2)

theorem undirNeighbors_perm {e1 e2 : List (Nat × Nat)}
    (h : e1.Perm e2) (a : Nat) :
    (undirNeighbors e1 a).Perm (undirNeighbors e2 a) := by
  unfold undirNeighbors outNeighbors
  refine List.Perm.append ?_ ?_
  · exact (List.reverse_perm _).trans
      (((h.filter _).map _).trans (List.reverse_perm _).symm)
  · exact (List.reverse_perm _).trans
      (((h.filter _).map _).trans (List.reverse_perm _).symm)

theorem initialLabels1_perm {e1 e2 : List (Nat × Nat)} (seed n : Nat)
    (h : e1.Perm e2) :
    initialLabels1 seed false e1 n = initialLabels1 seed false e2 n := by
  unfold initialLabels1
  simp only [Bool.not_false, if_pos rfl]
  exact List.map_congr_left (fun v _ =>
    (undirNeighbors_perm h v).length_eq)

theorem calcNew1_perm {e1 e2 : List (Nat × Nat)} (seed n : Nat)
    (labels : List Nat) (h : e1.Perm e2) :
    calcNew1 seed false e1 n labels = calcNew1 seed false e2 n labels := by
  unfold calcNew1
  refine List.map_congr_left (fun v _ => ?_)
  unfold nodeNewLabel
  have hs : sortNat ((undirNeighbors e1 v).map (fun u => labels.getD u 0)) =
      sortNat ((undirNeighbors e2 v).map (fun u => labels.getD u 0)) :=
    sortNat_perm_eq ((undirNeighbors_perm h v).map _)
  rw [if_pos (show (!false) = true from rfl), hs]
  rfl

theorem initialLabels2_perm {e1 e2 : List (Nat × Nat)} (n : Nat)
    (h : e1.Perm e2) :
    initialLabels2 e1 n = initialLabels2 e2 n := by
  unfold initialLabels2 edgesConnectingCount
  rw [List.flatMap_def, List.flatMap_def]
  exact congrArg List.flatten (List.map_congr_left (fun left _ =>
    List.map_congr_left (fun right _ => (h.filter _).length_eq)))

/-- Claim C10 as amended: node and edge weights never influence any
invariant entry point.  Two graphs with the same node count, directedness
and edge sequence — over arbitrary, possibly different, weight types and
values — get equal results from all four entry points; for undirected
graphs the same edge multiset in any storage order suffices.  (For
directed graphs the storage order matters, per the counterexample.) -/
theorem c10_weight_independence :
    (∀ (N1 E1 N2 E2 : Type) (g1 : WLGraph N1 E1) (g2 : WLGraph N2 E2)
        (nIters fuel : Nat),
      g1.nodeCount = g2.nodeCount → g1.directed = g2.directed →
      g1.edges = g2.edges →
        invariant g1 fuel = invariant g2 fuel ∧
        invariantIters g1 nIters = invariantIters g2 nIters ∧
        invariant2wl g1 fuel = invariant2wl g2 fuel ∧
        iter2wl g1 nIters = iter2wl g2 nIters) ∧
    (∀ (N1 E1 N2 E2 : Type) (g1 : WLGraph N1 E1) (g2 : WLGraph N2 E2)
        (nIters fuel : Nat),
      g1.directed = false → g2.directed = false →
      g1.nodeCount = g2.nodeCount → g1.edges.Perm g2.edges →
        invariant g1 fuel = invariant g2 fuel ∧
        invariantIters g1 nIters = invariantIters g2 nIters ∧
        invariant2wl g1 fuel = invariant2wl g2 fuel ∧
        iter2wl g1 nIters = iter2wl g2 nIters) := by
  constructor
  · intro N1 E1 N2 E2 g1 g2 nIters fuel h1 h2 h3
    unfold invariant invariantIters invariant2wl iter2wl
    rw [h1, h2, h3]
    exact ⟨rfl, rfl, rfl, rfl⟩
  · intro N1 E1 N2 E2 g1 g2 nIters fuel hd1 hd2 hn hperm
    have hcalc : calcNew1 42 false g1.edges g2.nodeCount =
        calcNew1 42 false g2.edges g2.nodeCount :=
      funext (fun labels => calcNew1_perm 42 g2.nodeCount labels hperm)
    have hinit : initialLabels1 42 false g1.edges g2.nodeCount =
        initialLabels1 42 false g2.edges g2.nodeCount :=
      initialLabels1_perm 42 g2.nodeCount hperm
    have hinit2 : initialLabels2 g1.edges g2.nodeCount =
        initialLabels2 g2.edges g2.nodeCount :=
      initialLabels2_perm g2.nodeCount hperm
    refine ⟨?_, ?_, ?_, ?_⟩
    · unfold invariant invariantCore run1Auto
      simp only [hn, hd1, hd2, hcalc, hinit]
    · unfold invariantIters invariantItersCore run1Fixed
      simp only [hn, hd1, hd2, hcalc, hinit]
    · unfold invariant2wl invariant2wlCore
      simp only [hn, hd1, hd2, hinit2]
    · unfold iter2wl iter2wlCore run2Fixed
      simp only [hn, hd1, hd2, hinit2]

/-- Witness for the amended C10: identical structure with different
weights across different weight types, and an undirected edge
reordering. -/
theorem c10_weight_independence_witness :
    invariant (WLGraph.mk 3 false [(0, 1), (1, 2)] [5, 6, 7] [1, 2]) 6 =
      invariant (WLGraph.mk 3 false [(0, 1), (1, 2)] ([] : List Unit)
        ([] : List Unit)) 6 ∧
    invariantIters (WLGraph.mk 3 false [(1, 2), (0, 1)] [5, 6, 7] [1, 2])
        2 =
      invariantIters (WLGraph.mk 3 false [(0, 1), (1, 2)] [9, 9, 9]
        [4, 4]) 2 :=
  ⟨((c10_weight_independence.1 Nat Nat Unit Unit
      (WLGraph.mk 3 false [(0, 1), (1, 2)] [5, 6, 7] [1, 2])
      (WLGraph.mk 3 false [(0, 1), (1, 2)] [] []) 2 6 rfl rfl rfl).1),
    ((c10_weight_independence.2 Nat Nat Nat Nat
      (WLGraph.mk 3 false [(1, 2), (0, 1)] [5, 6, 7] [1, 2])
      (WLGraph.mk 3 false [(0, 1), (1, 2)] [9, 9, 9] [4, 4]) 2 6 rfl rfl
      rfl (by decide)).2.1)⟩

end WL

